import Mathlib

/-!
# Verification of the DramaBox episode-pagination, merge and logging core

This development shallowly embeds the core data-assembly and observability
logic of the `dramabox-astro` repository:

* `src/api/chapter.ts` — `getAllChapters`, the sequential paginated fetcher;
* `src/components/MovieDetail.tsx` — the detail/chapter merge in
  `fetchDramaData` and the playable-URL selection `getBestVideoUrl`;
* `src/api/download.ts` — the `ApiLogger` class (`sanitizeData`,
  `truncateResponseBody`, `logResponse`, `logError`,
  `getActiveRequestsStats`, `cleanupStaleRequests`) together with the
  sensitive-name patterns of `src/config/logging.ts`;
* `src/utils/logger.ts` — the buffered durable sink (`processLog`,
  `flushLogs`).

Network fetches are modelled by an explicit oracle (`Nat → Except ...`),
wall-clock time by an explicit `now : Int` parameter, and the JavaScript
heap (for the frame property of `sanitizeData`) by an explicit store.
-/

deriving instance DecidableEq for Except

namespace DramaBox

/-! ## Data model (src/api/dramaboxHelperWithLogging.ts interfaces) -/

/-- One quality variant of an episode's video (interface `VideoPathItem`). -/
structure VideoPathItem where
  quality : Int
  videoPath : String
  isDefault : Int
  isEntry : Int
  isVipEquity : Int
deriving DecidableEq, Repr

/-- One CDN source of an episode (interface `CDNItem`); an absent or empty
`videoPathList` is modelled by the empty list, matching the
`!cdn.videoPathList || cdn.videoPathList.length === 0` guard. -/
structure CDNItem where
  cdnDomain : String
  isDefault : Int
  videoPathList : List VideoPathItem
deriving DecidableEq, Repr

/-- Opaque element of a `chapterSizeVoList`; the merge copies these lists
verbatim, so their internal structure is irrelevant. -/
structure ChapterSizeVo where
  payload : String
deriving DecidableEq, Repr

/-- An episode record (interface `Chapter`, plus the `isPay` /
`chapterSizeVoList` fields the merge in `MovieDetail.tsx` writes). -/
structure Chapter where
  chapterId : String
  chapterIndex : Int
  isCharge : Int
  isPay : Int
  chapterName : String
  chapterImg : String
  viewingDuration : Int
  chapterSizeVoList : List ChapterSizeVo
  cdnList : List CDNItem
deriving DecidableEq, Repr

/-! ## Paginated fetcher (src/api/chapter.ts, `getAllChapters`)

`fetchPage p` models the outcome of `getChapters(bookId, false, 1+(p-1)*6)`
for loop page `p`: `.error e` models a thrown network / non-2xx error and
`.ok l` the returned `chapterList` (already defaulted to `[]` by
`data?.data?.chapterList || []`).  The result triple is
`(accumulated chapters, pages actually fetched, pages whose fetch threw)`;
the error-page list models the `console.error` in the `catch` arm. -/

/-- The `for (let page = 1; page <= totalPages; page++)` loop body of
`getAllChapters`: a thrown fetch is caught, logged and skipped
(`continue`), a page with zero items `break`s, a non-empty page is
appended to the accumulator. -/
def getAllChaptersGo (fetchPage : Nat → Except String (List Chapter)) :
    List Nat → List Chapter × List Nat × List Nat
  | [] => ([], [], [])
  | p :: rest =>
    match fetchPage p with
    | .error _ =>
      let r := getAllChaptersGo fetchPage rest
      (r.1, p :: r.2.1, p :: r.2.2)
    | .ok [] => ([], [p], [])
    | .ok chapters =>
      let r := getAllChaptersGo fetchPage rest
      (chapters ++ r.1, p :: r.2.1, r.2.2)

/-- `Math.ceil(totalEpisodes / episodesPerPage)` with `episodesPerPage = 6`. -/
def totalPagesOf (totalEpisodes : Nat) : Nat := (totalEpisodes + 5) / 6

/-- `getAllChapters` of `src/api/chapter.ts`: iterate pages
`1..totalPages`, accumulating chapters, with early stop on an empty page
and catch-and-continue on a thrown page.  The caller always receives the
accumulated list — errors are caught inside the loop, never rethrown. -/
def getAllChapters (fetchPage : Nat → Except String (List Chapter))
    (totalEpisodes : Nat) : List Chapter × List Nat × List Nat :=
  getAllChaptersGo fetchPage (List.range' 1 (totalPagesOf totalEpisodes))

/-- Items a page contributes to the aggregate: the fetched list if the
fetch succeeded, nothing if it threw. -/
def pageItems (fetchPage : Nat → Except String (List Chapter)) (p : Nat) :
    List Chapter :=
  match fetchPage p with
  | .ok l => l
  | .error _ => []

/-- Whether the fetch of page `p` throws. -/
def pageThrows (fetchPage : Nat → Except String (List Chapter)) (p : Nat) :
    Bool :=
  match fetchPage p with
  | .ok _ => false
  | .error _ => true

/-- If no page of `ps` returns zero items, the loop visits all of `ps`. -/
theorem getAllChaptersGo_trace_of_no_empty
    (f : Nat → Except String (List Chapter)) (ps : List Nat)
    (h : ∀ p ∈ ps, f p ≠ .ok []) : (getAllChaptersGo f ps).2.1 = ps := by
  induction ps with
  | nil => rfl
  | cons p rest ih =>
    have hp : f p ≠ .ok [] := h p (List.mem_cons_self p rest)
    have hrest : ∀ q ∈ rest, f q ≠ .ok [] :=
      fun q hq => h q (List.mem_cons_of_mem p hq)
    cases hf : f p with
    | error e => simp [getAllChaptersGo, hf, ih hrest]
    | ok l =>
      cases l with
      | nil => exact absurd hf hp
      | cons a t => simp [getAllChaptersGo, hf, ih hrest]

/-- If every page of `qs` is non-empty and page `m` returns zero items,
the loop over `qs ++ m :: rs` visits exactly `qs ++ [m]`. -/
theorem getAllChaptersGo_trace_of_first_empty
    (f : Nat → Except String (List Chapter)) (qs : List Nat) (m : Nat)
    (rs : List Nat) (h : ∀ p ∈ qs, f p ≠ .ok []) (hm : f m = .ok []) :
    (getAllChaptersGo f (qs ++ m :: rs)).2.1 = qs ++ [m] := by
  induction qs with
  | nil => simp [getAllChaptersGo, hm]
  | cons q qs ih =>
    have hq : f q ≠ .ok [] := h q (List.mem_cons_self q qs)
    have hqs : ∀ p ∈ qs, f p ≠ .ok [] :=
      fun p hp => h p (List.mem_cons_of_mem q hp)
    cases hf : f q with
    | error e => simp [getAllChaptersGo, hf, ih hqs]
    | ok l =>
      cases l with
      | nil => exact absurd hf hq
      | cons a t => simp [getAllChaptersGo, hf, ih hqs]

/-- The aggregate equals the per-page items of the visited pages, and the
error log lists exactly the visited pages whose fetch threw. -/
theorem getAllChaptersGo_aggregate
    (f : Nat → Except String (List Chapter)) (ps : List Nat) :
    (getAllChaptersGo f ps).1 =
      ((getAllChaptersGo f ps).2.1.map (pageItems f)).flatten
    ∧ (getAllChaptersGo f ps).2.2 =
      (getAllChaptersGo f ps).2.1.filter (pageThrows f) := by
  induction ps with
  | nil => exact ⟨rfl, rfl⟩
  | cons p rest ih =>
    cases hf : f p with
    | error e =>
      simp [getAllChaptersGo, hf, ih.1, ih.2, pageItems, pageThrows]
    | ok l =>
      cases l with
      | nil => simp [getAllChaptersGo, hf, pageItems, pageThrows]
      | cons a t =>
        simp [getAllChaptersGo, hf, ih.1, ih.2, pageItems, pageThrows]

/-- C1 — `getAllChapters` with page size 6 issues page fetches for pages
`1..⌈totalEpisodes/6⌉` in increasing order, except that the first page
returning zero items stops fetching at that page (that page is still
fetched, later ones are not); `totalEpisodes = 0` issues no fetch at all.
Thrown pages do not stop the schedule.  The fetched-page trace is the
second component of the result. -/
theorem getAllChapters_page_schedule
    (f : Nat → Except String (List Chapter)) (totalEpisodes : Nat) :
    (totalEpisodes = 0 → (getAllChapters f totalEpisodes).2.1 = [])
    ∧ ((∀ p, p ≤ totalPagesOf totalEpisodes → 1 ≤ p → f p ≠ .ok []) →
        (getAllChapters f totalEpisodes).2.1 =
          List.range' 1 (totalPagesOf totalEpisodes))
    ∧ (∀ m, 1 ≤ m → m ≤ totalPagesOf totalEpisodes → f m = .ok [] →
        (∀ p, p < m → 1 ≤ p → f p ≠ .ok []) →
        (getAllChapters f totalEpisodes).2.1 = List.range' 1 m)
    ∧ (getAllChapters f totalEpisodes).1 =
        ((getAllChapters f totalEpisodes).2.1.map (pageItems f)).flatten := by
  refine ⟨fun h0 => by subst h0; rfl, fun hnone => ?_,
    fun m hm1 hm2 hm hfirst => ?_,
    (getAllChaptersGo_aggregate f (List.range' 1 (totalPagesOf totalEpisodes))).1⟩
  · exact getAllChaptersGo_trace_of_no_empty f _ (fun p hp => by
      obtain ⟨h1, h2⟩ := List.mem_range'_1.mp hp
      exact hnone p (by omega) h1)
  · -- split the page range at the first empty page m
    have hsplit : List.range' 1 (totalPagesOf totalEpisodes) =
        List.range' 1 (m - 1) ++ m :: List.range' (m + 1) (totalPagesOf totalEpisodes - m) := by
      have h1 : List.range' 1 (m - 1) ++ List.range' (1 + 1 * (m - 1)) (totalPagesOf totalEpisodes - (m - 1)) =
          List.range' 1 ((totalPagesOf totalEpisodes - (m - 1)) + (m - 1)) :=
        List.range'_append 1 (m - 1) (totalPagesOf totalEpisodes - (m - 1)) 1
      have e1 : 1 + 1 * (m - 1) = m := by omega
      have e2 : totalPagesOf totalEpisodes - (m - 1) + (m - 1) = totalPagesOf totalEpisodes := by omega
      have e3 : totalPagesOf totalEpisodes - (m - 1) = (totalPagesOf totalEpisodes - m) + 1 := by omega
      rw [e1, e2, e3] at h1
      rw [← h1, List.range'_succ]
    rw [getAllChapters, hsplit]
    have htr := getAllChaptersGo_trace_of_first_empty f (List.range' 1 (m - 1)) m
      (List.range' (m + 1) (totalPagesOf totalEpisodes - m))
      (fun p hp => by
        obtain ⟨h1, h2⟩ := List.mem_range'_1.mp hp
        exact hfirst p (by omega) h1) hm
    rw [htr]
    have : List.range' 1 ((m - 1) + 1) = List.range' 1 (m - 1) ++ [1 + (m - 1)] :=
      List.range'_1_concat 1 (m - 1)
    have e4 : (m - 1) + 1 = m := by omega
    have e5 : 1 + (m - 1) = m := by omega
    rw [e4, e5] at this
    exact this.symm

/-- A minimal concrete chapter used to exercise the fetch loop. -/
def demoChapter : Chapter :=
  { chapterId := "ch-1", chapterIndex := 1, isCharge := 0, isPay := 0,
    chapterName := "Episode 1", chapterImg := "", viewingDuration := 60,
    chapterSizeVoList := [], cdnList := [] }

/-- A concrete fetch oracle: page 2 throws, page 3 is empty, every other
page returns one chapter. -/
def demoOracle : Nat → Except String (List Chapter) := fun p =>
  if p = 2 then .error "network error"
  else if p = 3 then .ok []
  else .ok [demoChapter]

/-- Witness for C1: with `totalEpisodes = 13` (3 pages) and the first
empty page at 3, the fetched pages are exactly `[1, 2, 3]`. -/
theorem getAllChapters_page_schedule_witness :
    demoOracle 3 = .ok [] ∧ (∀ p, p < 3 → 1 ≤ p → demoOracle p ≠ .ok [])
    ∧ (getAllChapters demoOracle 13).2.1 = [1, 2, 3] :=
  ⟨by decide, by decide,
    ((getAllChapters_page_schedule demoOracle 13).2.2.1 3 (by decide)
      (by decide) (by decide) (by decide)).trans (by decide)⟩

/-- C2 — if any single page fetch of `getAllChapters` throws, that page is
logged in the error trace and skipped, pagination continues, and the
aggregate result contains exactly the items of every successfully fetched
page in original page order.  The function's return type carries no error:
a page error is caught inside the loop and never rethrown to the caller. -/
theorem getAllChapters_error_resilience
    (f : Nat → Except String (List Chapter)) (totalEpisodes : Nat) :
    (getAllChapters f totalEpisodes).1 =
      ((getAllChapters f totalEpisodes).2.1.map (pageItems f)).flatten
    ∧ (getAllChapters f totalEpisodes).2.2 =
      (getAllChapters f totalEpisodes).2.1.filter (pageThrows f) :=
  getAllChaptersGo_aggregate f (List.range' 1 (totalPagesOf totalEpisodes))

/-! ## Episode merger (src/components/MovieDetail.tsx, `fetchDramaData`)

The merge step zips the chapter list (video sources) with the detail
episodes positionally:

```js
const mergedChapters = chaptersData.map((chapter, index) => {
  const detailEpisode = detailEpisodes[index];
  if (detailEpisode) {
    return { ...chapter,
      chapterIndex: detailEpisode.chapterIndex,
      isCharge: detailEpisode.isCharge,
      isPay: detailEpisode.isPay || 0,
      chapterSizeVoList: detailEpisode.chapterSizeVoList || [] };
  }
  return chapter;
});
```
-/

/-- Per-episode metadata from the detail API (`detailData.list` entries).
`isPay` and `chapterSizeVoList` may be absent (`undefined`), modelled with
`Option`; the merge defaults them via `|| 0` / `|| []`. -/
structure DetailEpisode where
  chapterIndex : Int
  isCharge : Int
  isPay : Option Int
  chapterSizeVoList : Option (List ChapterSizeVo)
deriving DecidableEq, Repr

/-- The spread-merge `{ ...chapter, chapterIndex: ..., isCharge: ...,
isPay: detailEpisode.isPay || 0, chapterSizeVoList: ... || [] }`. -/
def mergeChapter (chapter : Chapter) (detailEpisode : DetailEpisode) : Chapter :=
  { chapter with
    chapterIndex := detailEpisode.chapterIndex,
    isCharge := detailEpisode.isCharge,
    isPay := detailEpisode.isPay.getD 0,
    chapterSizeVoList := detailEpisode.chapterSizeVoList.getD [] }

/-- The positional merge of `fetchDramaData`: `detailEpisodes[index]` is
`undefined` (here `none`) exactly when `index` is out of range. -/
def mergeChapters (chaptersData : List Chapter)
    (detailEpisodes : List DetailEpisode) : List Chapter :=
  chaptersData.mapIdx fun index chapter =>
    match detailEpisodes[index]? with
    | some detailEpisode => mergeChapter chapter detailEpisode
    | none => chapter

/-- C3 — merging a chapter list of length `M` with a detail list of length
`N` yields a list of length `M` in the chapter list's own order: entry `i`
is the chapter entry at `i` with `chapterIndex`, `isCharge`, `isPay` and
the size-variant list copied from the detail entry at `i` when `i < N`,
and the unchanged chapter entry when `N ≤ i`; the result is never
truncated or padded to length `N`. -/
theorem mergeChapters_spec (cs : List Chapter) (ds : List DetailEpisode) :
    (mergeChapters cs ds).length = cs.length
    ∧ (∀ i (hc : i < cs.length) (hd : i < ds.length),
        (mergeChapters cs ds)[i]? = some (mergeChapter cs[i] ds[i]))
    ∧ (∀ i (hc : i < cs.length), ds.length ≤ i →
        (mergeChapters cs ds)[i]? = some cs[i]) := by
  refine ⟨List.length_mapIdx, fun i hc hd => ?_, fun i hc hd => ?_⟩
  · rw [mergeChapters, List.getElem?_mapIdx,
      List.getElem?_eq_getElem hc, List.getElem?_eq_getElem hd]
    rfl
  · have hd' : ds[i]? = none := List.getElem?_eq_none hd
    rw [mergeChapters, List.getElem?_mapIdx, List.getElem?_eq_getElem hc, hd']
    rfl

/-- A second concrete chapter for the merge witness. -/
def demoChapter2 : Chapter :=
  { demoChapter with chapterId := "ch-2", chapterName := "Episode 2" }

/-- A concrete detail episode for the merge witness. -/
def demoDetail : DetailEpisode :=
  { chapterIndex := 7, isCharge := 1, isPay := none, chapterSizeVoList := none }

/-- Witness for C3: merging two chapters with one detail entry keeps
length 2, backfills index 0 and leaves index 1 untouched. -/
theorem mergeChapters_spec_witness :
    (mergeChapters [demoChapter, demoChapter2] [demoDetail]).length = 2
    ∧ (mergeChapters [demoChapter, demoChapter2] [demoDetail])[0]? =
        some (mergeChapter demoChapter demoDetail)
    ∧ (mergeChapters [demoChapter, demoChapter2] [demoDetail])[1]? =
        some demoChapter2 :=
  ⟨(mergeChapters_spec [demoChapter, demoChapter2] [demoDetail]).1,
    ((mergeChapters_spec [demoChapter, demoChapter2] [demoDetail]).2.1 0
      (by decide) (by decide)).trans (by decide),
    ((mergeChapters_spec [demoChapter, demoChapter2] [demoDetail]).2.2 1
      (by decide) (by decide)).trans (by decide)⟩

/-! ## Playable-URL selection (src/components/MovieDetail.tsx, `getBestVideoUrl`) -/

/-- The `for (const cdn of chapter.cdnList)` loop of `getBestVideoUrl`:
skip CDN entries with an empty variant list; within the first non-empty
one prefer a default non-VIP variant, then any non-VIP variant, then the
first variant.  The final `head?`-`none` arm mirrors the loop falling
through when `cdn.videoPathList[0]` is falsy (unreachable for a non-empty
list). -/
def getBestVideoUrlGo : List CDNItem → Option String
  | [] => none
  | cdn :: rest =>
    if cdn.videoPathList.isEmpty then getBestVideoUrlGo rest
    else
      match cdn.videoPathList.find? fun v => v.isDefault == 1 && v.isVipEquity == 0 with
      | some v => some v.videoPath
      | none =>
        match cdn.videoPathList.find? fun v => v.isVipEquity == 0 with
        | some v => some v.videoPath
        | none =>
          match cdn.videoPathList.head? with
          | some v => some v.videoPath
          | none => getBestVideoUrlGo rest

/-- `getBestVideoUrl` of `MovieDetail.tsx`: `null` (here `none`) when the
CDN list is missing or empty, otherwise the loop above. -/
def getBestVideoUrl (chapter : Chapter) : Option String :=
  if chapter.cdnList.isEmpty then none
  else getBestVideoUrlGo chapter.cdnList

/-- Modelled from the spec's words: the three-tier preference order within
one CDN entry — default-and-non-gated, else first non-gated, else first
variant present. -/
def bestVariantOf (cdn : CDNItem) : Option VideoPathItem :=
  ((cdn.videoPathList.find? fun v => v.isDefault == 1 && v.isVipEquity == 0).orElse
    fun _ => (cdn.videoPathList.find? fun v => v.isVipEquity == 0).orElse
      fun _ => cdn.videoPathList.head?)

/-- Modelled from the spec's words: resolve the playable URL from the
first CDN entry having a non-empty variant list, `none` if there is no
such entry. -/
def getBestVideoUrlSpec (chapter : Chapter) : Option String :=
  match chapter.cdnList.find? fun cdn => !cdn.videoPathList.isEmpty with
  | some cdn => (bestVariantOf cdn).map (·.videoPath)
  | none => none

/-- The loop agrees with the spec-form selection on every CDN list. -/
theorem getBestVideoUrlGo_eq_spec (l : List CDNItem) :
    getBestVideoUrlGo l =
      match l.find? fun cdn => !cdn.videoPathList.isEmpty with
      | some cdn => (bestVariantOf cdn).map (·.videoPath)
      | none => none := by
  induction l with
  | nil => rfl
  | cons cdn rest ih =>
    by_cases he : cdn.videoPathList.isEmpty
    · simpa [getBestVideoUrlGo, he] using ih
    · rw [List.find?_cons_of_pos _ (by simpa using he)]
      cases hvp : cdn.videoPathList with
      | nil => exact absurd (by simp [hvp]) he
      | cons v vs =>
        simp only [getBestVideoUrlGo, he, if_false, bestVariantOf, hvp]
        cases h1 : (v :: vs).find? fun v => v.isDefault == 1 && v.isVipEquity == 0 with
        | some w => simp [Option.orElse, h1]
        | none =>
          cases h2 : (v :: vs).find? fun v => v.isVipEquity == 0 with
          | some w => simp [Option.orElse, h1, h2]
          | none => simp [Option.orElse, h1, h2]

/-- A chapter whose single CDN holds a gated non-default variant `"a"`
and a default non-gated variant `"b"`. -/
def exampleVipChapter : Chapter :=
  { demoChapter with cdnList := [
      { cdnDomain := "", isDefault := 1, videoPathList := [
          { quality := 720, videoPath := "a", isDefault := 0, isEntry := 0,
            isVipEquity := 1 },
          { quality := 720, videoPath := "b", isDefault := 1, isEntry := 0,
            isVipEquity := 0 } ] } ] }

/-- C4 — `getBestVideoUrl` returns, within the first CDN entry having a
non-empty variant list, the `videoPath` of a default non-gated variant if
one exists, else of the first non-gated variant, else of the first
variant; it returns `none` when the CDN list is empty or every entry's
variant list is empty.  In particular the two-variant example chapter
resolves to `"b"`. -/
theorem getBestVideoUrl_spec :
    (∀ chapter : Chapter, getBestVideoUrl chapter = getBestVideoUrlSpec chapter)
    ∧ getBestVideoUrl exampleVipChapter = some "b" := by
  refine ⟨fun chapter => ?_, by decide⟩
  rw [getBestVideoUrl, getBestVideoUrlSpec]
  cases hc : chapter.cdnList with
  | nil => rfl
  | cons cdn rest =>
    rw [if_neg (by simp)]
    exact getBestVideoUrlGo_eq_spec (cdn :: rest)

/-! ## Structured payloads (JSON-ish values)

The structured data handed to the logger (`sanitizeData`,
`truncateResponseBody` in `src/api/download.ts`) is arbitrary JSON-like
data; JavaScript numbers are modelled as integers (no float behaviour is
relevant to these claims). -/

/-- A JSON-like JavaScript value. -/
inductive JValue where
  | null
  | boolean (b : Bool)
  | num (n : Int)
  | str (s : String)
  | arr (elems : List JValue)
  | obj (entries : List (String × JValue))

/-- ASCII lowercasing of one character, as the case-insensitive regex
flag `i` behaves on the ASCII-only sensitive patterns. -/
def lowerChar (c : Char) : Char :=
  if 'A' ≤ c ∧ c ≤ 'Z' then Char.ofNat (c.toNat + 32) else c

/-- Lowercased character list of a string. -/
def lowerChars (s : String) : List Char := s.data.map lowerChar

/-- Substring search: does `pat` occur contiguously inside the list? -/
def hasSubstring (pat : List Char) : List Char → Bool
  | [] => pat.isEmpty
  | c :: rest => pat.isPrefixOf (c :: rest) || hasSubstring pat rest

/-- `apiLoggingSettings.sensitiveDataPatterns` of `src/config/logging.ts`:
the case-insensitive regexes `/password/i, /token/i, /secret/i, /key/i,
/authorization/i, /cookie/i, /session/i`. -/
def sensitiveDataPatterns : List String :=
  ["password", "token", "secret", "key", "authorization", "cookie", "session"]

/-- `pattern.test(key)` over all sensitive patterns: a case-insensitive
substring match (the patterns themselves are lowercase ASCII). -/
def isSensitiveKey (key : String) : Bool :=
  sensitiveDataPatterns.any fun pat => hasSubstring pat.data (lowerChars key)

/-- The `'[REDACTED]'` replacement marker. -/
def redactedMarker : String := "[REDACTED]"

/-- The `'[Object too deep]'` depth-exceeded marker. -/
def deepMarker : String := "[Object too deep]"

/-- `sanitizeRecursive(obj, depth)` of `ApiLogger.sanitizeData`, indexed
by the remaining depth budget `6 - depth` (the source checks
`depth > 5` on entry, so budget `0` means the call at depth 6):
budget exhausted replaces the value wholesale with the depth marker;
arrays recurse into every item; objects redact sensitive keys and recurse
into object-typed values (`value && typeof value === 'object'`, which
excludes `null` and all primitives), keeping other values verbatim. -/
def sanitizeRecursive : Nat → JValue → JValue
  | 0, _ => .str deepMarker
  | budget + 1, v =>
    match v with
    | .arr elems => .arr (elems.map (sanitizeRecursive budget))
    | .obj entries => .obj (entries.map fun kv =>
        if isSensitiveKey kv.1 then (kv.1, .str redactedMarker)
        else
          match kv.2 with
          | .obj es => (kv.1, sanitizeRecursive budget (.obj es))
          | .arr es => (kv.1, sanitizeRecursive budget (.arr es))
          | w => (kv.1, w))
    | w => w

/-- `ApiLogger.sanitizeData`: non-objects (and falsy values) are returned
unchanged; objects and arrays are shallow-copied (identity in this pure
model) and passed to `sanitizeRecursive` at depth 0, i.e. budget 6. -/
def sanitizeData : JValue → JValue
  | .obj entries => sanitizeRecursive 6 (.obj entries)
  | .arr elems => sanitizeRecursive 6 (.arr elems)
  | v => v

/-- One step of a path into a `JValue`: an object key or an array index. -/
inductive PathElem where
  | key (k : String)
  | idx (i : Nat)

/-- Look a path up in a value; object steps take the first entry with the
given key, mirroring JavaScript property access on `Object.entries`
output (whose keys are unique). -/
def getPath : JValue → List PathElem → Option JValue
  | v, [] => some v
  | .obj entries, .key k :: p =>
    match entries.find? fun kv => kv.1 = k with
    | some kv => getPath kv.2 p
    | none => none
  | .arr elems, .idx i :: p =>
    match elems[i]? with
    | some w => getPath w p
    | none => none
  | _, _ => none

/-- A path whose object keys are all non-sensitive. -/
def sensitiveFreePath (p : List PathElem) : Bool :=
  p.all fun e =>
    match e with
    | .key k => !isSensitiveKey k
    | .idx _ => true

/-- Objects and arrays — the values `typeof v === 'object' && v` accepts. -/
def isComposite : JValue → Bool
  | .obj _ => true
  | .arr _ => true
  | _ => false

/-- Unfolding: `sanitizeRecursive` on an object with remaining budget. -/
theorem sanitizeRecursive_obj_eq (b : Nat) (entries : List (String × JValue)) :
    sanitizeRecursive (b + 1) (.obj entries) =
      .obj (entries.map fun kv =>
        if isSensitiveKey kv.1 then (kv.1, JValue.str redactedMarker)
        else
          match kv.2 with
          | .obj es => (kv.1, sanitizeRecursive b (.obj es))
          | .arr es => (kv.1, sanitizeRecursive b (.arr es))
          | w => (kv.1, w)) := rfl

/-- Unfolding: `sanitizeRecursive` on an array with remaining budget. -/
theorem sanitizeRecursive_arr_eq (b : Nat) (elems : List JValue) :
    sanitizeRecursive (b + 1) (.arr elems) =
      .arr (elems.map (sanitizeRecursive b)) := rfl

/-- Unfolding: `getPath` through an object key. -/
theorem getPath_obj_eq (entries : List (String × JValue)) (k : String)
    (p : List PathElem) :
    getPath (.obj entries) (.key k :: p) =
      match entries.find? fun kv => kv.1 = k with
      | some kv => getPath kv.2 p
      | none => none := rfl

/-- Unfolding: `getPath` through an array index. -/
theorem getPath_arr_eq (elems : List JValue) (i : Nat) (p : List PathElem) :
    getPath (.arr elems) (.idx i :: p) =
      match elems[i]? with
      | some w => getPath w p
      | none => none := rfl

/-- A non-composite value has no sub-paths. -/
theorem getPath_not_composite (v : JValue) (hv : isComposite v = false)
    (q : List PathElem) (hq : q ≠ []) : getPath v q = none := by
  cases q with
  | nil => exact absurd rfl hq
  | cons e p =>
    cases v with
    | obj entries => simp [isComposite] at hv
    | arr elems => simp [isComposite] at hv
    | null => cases e <;> rfl
    | boolean b => cases e <;> rfl
    | num n => cases e <;> rfl
    | str s => cases e <;> rfl

/-- `find?` by key commutes with mapping a key-preserving function over
an entry list. -/
theorem find?_map_of_preserving_fst (F : String × JValue → String × JValue)
    (hF : ∀ kv, (F kv).1 = kv.1) (entries : List (String × JValue)) (k : String) :
    (entries.map F).find? (fun kv => kv.1 = k) =
      (entries.find? fun kv => kv.1 = k).map F := by
  induction entries with
  | nil => rfl
  | cons kv rest ih =>
    by_cases hk : kv.1 = k
    · simp [List.find?_cons, hF kv, hk]
    · simp [List.find?_cons, hF kv, hk, ih]

/-- The entry-mapping function of `sanitizeRecursive` preserves keys. -/
theorem sanitizeEntry_fst (b : Nat) (kv : String × JValue) :
    ((if isSensitiveKey kv.1 then (kv.1, JValue.str redactedMarker)
      else
        match kv.2 with
        | .obj es => (kv.1, sanitizeRecursive b (.obj es))
        | .arr es => (kv.1, sanitizeRecursive b (.arr es))
        | w => (kv.1, w)) : String × JValue).1 = kv.1 := by
  by_cases h : isSensitiveKey kv.1
  · simp [h]
  · simp only [h, if_false, Bool.false_eq_true]
    cases kv.2 <;> rfl

/-- Below a sensitive-free path shorter than the remaining budget, a
sensitive key is redacted. -/
theorem sanitizeRecursive_redacts (p : List PathElem) :
    ∀ (b : Nat) (v w : JValue) (k : String),
      sensitiveFreePath p = true → p.length < b → isSensitiveKey k = true →
      getPath v (p ++ [.key k]) = some w →
      getPath (sanitizeRecursive b v) (p ++ [.key k]) =
        some (.str redactedMarker) := by
  induction p with
  | nil =>
    intro b v w k _ hb hk hget
    cases b with
    | zero => omega
    | succ b =>
      cases v with
      | obj entries =>
        rw [List.nil_append] at hget ⊢
        rw [getPath_obj_eq] at hget
        rw [sanitizeRecursive_obj_eq, getPath_obj_eq,
          find?_map_of_preserving_fst _ (sanitizeEntry_fst b) entries k]
        cases hfind : entries.find? fun kv => kv.1 = k with
        | none => rw [hfind] at hget; exact Option.noConfusion hget
        | some kv =>
          have hkey : kv.1 = k := by simpa using List.find?_some hfind
          simp only [Option.map_some']
          rw [if_pos (by rw [hkey]; exact hk)]
          rfl
      | null => rw [getPath_not_composite .null rfl _ (by simp)] at hget
                exact Option.noConfusion hget
      | boolean bb => rw [getPath_not_composite (.boolean bb) rfl _ (by simp)] at hget
                      exact Option.noConfusion hget
      | num n => rw [getPath_not_composite (.num n) rfl _ (by simp)] at hget
                 exact Option.noConfusion hget
      | str s => rw [getPath_not_composite (.str s) rfl _ (by simp)] at hget
                 exact Option.noConfusion hget
      | arr elems =>
        rw [List.nil_append] at hget
        exact Option.noConfusion hget
  | cons e p ih =>
    intro b v w k hfree hb hk hget
    cases b with
    | zero => omega
    | succ b =>
      have hb' : p.length < b := by simp at hb; omega
      cases e with
      | key k' =>
        have hk' : isSensitiveKey k' = false := by
          simp [sensitiveFreePath] at hfree
          simpa using hfree.1
        have hfree' : sensitiveFreePath p = true := by
          simp [sensitiveFreePath] at hfree ⊢
          exact hfree.2
        cases v with
        | obj entries =>
          rw [List.cons_append] at hget ⊢
          rw [getPath_obj_eq] at hget
          rw [sanitizeRecursive_obj_eq, getPath_obj_eq,
            find?_map_of_preserving_fst _ (sanitizeEntry_fst b) entries k']
          cases hfind : entries.find? fun kv => kv.1 = k' with
          | none => rw [hfind] at hget; exact Option.noConfusion hget
          | some kv =>
            rw [hfind] at hget
            have hget2 : getPath kv.2 (p ++ [PathElem.key k]) = some w := hget
            have hkey : kv.1 = k' := by simpa using List.find?_some hfind
            simp only [Option.map_some']
            rw [if_neg (by rw [hkey, hk']; exact Bool.false_ne_true)]
            cases hv2 : kv.2 with
            | obj es => exact ih b (.obj es) w k hfree' hb' hk (hv2 ▸ hget2)
            | arr es => exact ih b (.arr es) w k hfree' hb' hk (hv2 ▸ hget2)
            | null =>
              rw [hv2, getPath_not_composite .null rfl _ (by simp)] at hget2
              exact Option.noConfusion hget2
            | boolean bb =>
              rw [hv2, getPath_not_composite (.boolean bb) rfl _ (by simp)] at hget2
              exact Option.noConfusion hget2
            | num n =>
              rw [hv2, getPath_not_composite (.num n) rfl _ (by simp)] at hget2
              exact Option.noConfusion hget2
            | str s =>
              rw [hv2, getPath_not_composite (.str s) rfl _ (by simp)] at hget2
              exact Option.noConfusion hget2
        | null => rw [getPath_not_composite .null rfl _ (by simp)] at hget
                  exact Option.noConfusion hget
        | boolean bb => rw [getPath_not_composite (.boolean bb) rfl _ (by simp)] at hget
                        exact Option.noConfusion hget
        | num n => rw [getPath_not_composite (.num n) rfl _ (by simp)] at hget
                   exact Option.noConfusion hget
        | str s => rw [getPath_not_composite (.str s) rfl _ (by simp)] at hget
                   exact Option.noConfusion hget
        | arr elems => rw [List.cons_append] at hget; exact Option.noConfusion hget
      | idx i =>
        have hfree' : sensitiveFreePath p = true := by
          simpa [sensitiveFreePath] using hfree
        cases v with
        | arr elems =>
          rw [List.cons_append] at hget ⊢
          rw [getPath_arr_eq] at hget
          rw [sanitizeRecursive_arr_eq, getPath_arr_eq, List.getElem?_map]
          cases helem : elems[i]? with
          | none => rw [helem] at hget; exact Option.noConfusion hget
          | some v' =>
            rw [helem] at hget
            simp only [Option.map_some']
            exact ih b v' w k hfree' hb' hk hget
        | null => rw [getPath_not_composite .null rfl _ (by simp)] at hget
                  exact Option.noConfusion hget
        | boolean bb => rw [getPath_not_composite (.boolean bb) rfl _ (by simp)] at hget
                        exact Option.noConfusion hget
        | num n => rw [getPath_not_composite (.num n) rfl _ (by simp)] at hget
                   exact Option.noConfusion hget
        | str s => rw [getPath_not_composite (.str s) rfl _ (by simp)] at hget
                   exact Option.noConfusion hget
        | obj entries => rw [List.cons_append] at hget; exact Option.noConfusion hget

/-- A composite subtree sitting exactly at the end of the remaining
budget (reached through non-sensitive keys only) is replaced wholesale by
the depth-exceeded marker. -/
theorem sanitizeRecursive_deep (p : List PathElem) :
    ∀ (b : Nat) (v w : JValue),
      sensitiveFreePath p = true → p.length = b →
      getPath v p = some w → isComposite w = true →
      getPath (sanitizeRecursive b v) p = some (.str deepMarker) := by
  induction p with
  | nil =>
    intro b v w _ hb hget _
    have hb0 : b = 0 := by simpa using hb.symm
    subst hb0
    rfl
  | cons e p ih =>
    intro b v w hfree hb hget hw
    cases b with
    | zero => simp at hb
    | succ b =>
      have hb' : p.length = b := by simpa using hb
      cases e with
      | key k' =>
        have hk' : isSensitiveKey k' = false := by
          simp [sensitiveFreePath] at hfree
          simpa using hfree.1
        have hfree' : sensitiveFreePath p = true := by
          simp [sensitiveFreePath] at hfree ⊢
          exact hfree.2
        cases v with
        | obj entries =>
          rw [getPath_obj_eq] at hget
          rw [sanitizeRecursive_obj_eq, getPath_obj_eq,
            find?_map_of_preserving_fst _ (sanitizeEntry_fst b) entries k']
          cases hfind : entries.find? fun kv => kv.1 = k' with
          | none => rw [hfind] at hget; exact Option.noConfusion hget
          | some kv =>
            rw [hfind] at hget
            have hget2 : getPath kv.2 p = some w := hget
            have hkey : kv.1 = k' := by simpa using List.find?_some hfind
            simp only [Option.map_some']
            rw [if_neg (by rw [hkey, hk']; exact Bool.false_ne_true)]
            cases hv2 : kv.2 with
            | obj es => exact ih b (.obj es) w hfree' hb' (hv2 ▸ hget2) hw
            | arr es => exact ih b (.arr es) w hfree' hb' (hv2 ▸ hget2) hw
            | null =>
              rw [hv2] at hget2
              cases p with
              | nil =>
                have h3 : (some (JValue.null) : Option JValue) = some w := hget2
                rw [← Option.some.inj h3] at hw
                simp [isComposite] at hw
              | cons e' p' =>
                rw [getPath_not_composite .null rfl _ (by simp)] at hget2
                exact Option.noConfusion hget2
            | boolean bb =>
              rw [hv2] at hget2
              cases p with
              | nil =>
                have h3 : (some (JValue.boolean bb) : Option JValue) = some w := hget2
                rw [← Option.some.inj h3] at hw
                simp [isComposite] at hw
              | cons e' p' =>
                rw [getPath_not_composite (.boolean bb) rfl _ (by simp)] at hget2
                exact Option.noConfusion hget2
            | num n =>
              rw [hv2] at hget2
              cases p with
              | nil =>
                have h3 : (some (JValue.num n) : Option JValue) = some w := hget2
                rw [← Option.some.inj h3] at hw
                simp [isComposite] at hw
              | cons e' p' =>
                rw [getPath_not_composite (.num n) rfl _ (by simp)] at hget2
                exact Option.noConfusion hget2
            | str s =>
              rw [hv2] at hget2
              cases p with
              | nil =>
                have h3 : (some (JValue.str s) : Option JValue) = some w := hget2
                rw [← Option.some.inj h3] at hw
                simp [isComposite] at hw
              | cons e' p' =>
                rw [getPath_not_composite (.str s) rfl _ (by simp)] at hget2
                exact Option.noConfusion hget2
        | null => rw [getPath_not_composite .null rfl _ (by simp)] at hget
                  exact Option.noConfusion hget
        | boolean bb => rw [getPath_not_composite (.boolean bb) rfl _ (by simp)] at hget
                        exact Option.noConfusion hget
        | num n => rw [getPath_not_composite (.num n) rfl _ (by simp)] at hget
                   exact Option.noConfusion hget
        | str s => rw [getPath_not_composite (.str s) rfl _ (by simp)] at hget
                   exact Option.noConfusion hget
        | arr elems => exact Option.noConfusion hget
      | idx i =>
        have hfree' : sensitiveFreePath p = true := by
          simpa [sensitiveFreePath] using hfree
        cases v with
        | arr elems =>
          rw [getPath_arr_eq] at hget
          rw [sanitizeRecursive_arr_eq, getPath_arr_eq, List.getElem?_map]
          cases helem : elems[i]? with
          | none => rw [helem] at hget; exact Option.noConfusion hget
          | some v' =>
            rw [helem] at hget
            have hget2 : getPath v' p = some w := hget
            simp only [Option.map_some']
            exact ih b v' w hfree' hb' hget2 hw
        | null => rw [getPath_not_composite .null rfl _ (by simp)] at hget
                  exact Option.noConfusion hget
        | boolean bb => rw [getPath_not_composite (.boolean bb) rfl _ (by simp)] at hget
                        exact Option.noConfusion hget
        | num n => rw [getPath_not_composite (.num n) rfl _ (by simp)] at hget
                   exact Option.noConfusion hget
        | str s => rw [getPath_not_composite (.str s) rfl _ (by simp)] at hget
                   exact Option.noConfusion hget
        | obj entries => exact Option.noConfusion hget

/-- C5 (amended) — for every payload: (a) an object key matching a
sensitive pattern, reached at depth ≤ 5 through non-sensitive keys only,
is mapped to the redaction marker in the output (hence its original value
does not survive at that position); (b) a composite subtree first reached
at depth 6 through non-sensitive keys is replaced wholesale by the
depth-exceeded marker.  (The un-amended claim fails when a sensitive key
guards the path — see the counterexample.) -/
theorem sanitizeData_redaction (v : JValue) :
    (∀ (p : List PathElem) (k : String) (w : JValue),
        sensitiveFreePath p = true → p.length ≤ 5 → isSensitiveKey k = true →
        getPath v (p ++ [.key k]) = some w →
        getPath (sanitizeData v) (p ++ [.key k]) = some (.str redactedMarker))
    ∧ (∀ (p : List PathElem) (w : JValue),
        sensitiveFreePath p = true → p.length = 6 →
        getPath v p = some w → isComposite w = true →
        getPath (sanitizeData v) p = some (.str deepMarker)) := by
  constructor
  · intro p k w hfree hlen hk hget
    cases v with
    | obj entries =>
      exact sanitizeRecursive_redacts p 6 (.obj entries) w k hfree
        (by omega) hk hget
    | arr elems =>
      exact sanitizeRecursive_redacts p 6 (.arr elems) w k hfree
        (by omega) hk hget
    | null =>
      rw [getPath_not_composite .null rfl _ (by simp)] at hget
      exact Option.noConfusion hget
    | boolean bb =>
      rw [getPath_not_composite (.boolean bb) rfl _ (by simp)] at hget
      exact Option.noConfusion hget
    | num n =>
      rw [getPath_not_composite (.num n) rfl _ (by simp)] at hget
      exact Option.noConfusion hget
    | str s =>
      rw [getPath_not_composite (.str s) rfl _ (by simp)] at hget
      exact Option.noConfusion hget
  · intro p w hfree hlen hget hw
    have hp : p ≠ [] := by
      intro h
      rw [h] at hlen
      simp at hlen
    cases v with
    | obj entries =>
      exact sanitizeRecursive_deep p 6 (.obj entries) w hfree hlen hget hw
    | arr elems =>
      exact sanitizeRecursive_deep p 6 (.arr elems) w hfree hlen hget hw
    | null =>
      rw [getPath_not_composite .null rfl _ hp] at hget
      exact Option.noConfusion hget
    | boolean bb =>
      rw [getPath_not_composite (.boolean bb) rfl _ hp] at hget
      exact Option.noConfusion hget
    | num n =>
      rw [getPath_not_composite (.num n) rfl _ hp] at hget
      exact Option.noConfusion hget
    | str s =>
      rw [getPath_not_composite (.str s) rfl _ hp] at hget
      exact Option.noConfusion hget

/-- C5 (counterexample to the claim as stated) — in the payload
`{token: {password: "x"}}`, the key `password` is sensitive and sits at
depth 1 ≤ 5, yet the output does not map `password` to the redaction
marker: the whole `token` subtree was already replaced by the marker, so
the `password` key is absent from the output. -/
theorem sanitizeData_claim_counterexample :
    getPath (JValue.obj [("token", .obj [("password", .str "x")])])
        [.key "token", .key "password"] = some (.str "x")
    ∧ isSensitiveKey "password" = true
    ∧ ¬ getPath (sanitizeData (JValue.obj [("token", .obj [("password", .str "x")])]))
        [.key "token", .key "password"] = some (.str redactedMarker) := by
  refine ⟨rfl, by decide, fun h => ?_⟩
  have h0 : getPath (sanitizeData (JValue.obj [("token", .obj [("password", .str "x")])]))
      [.key "token", .key "password"] = none := rfl
  rw [h0] at h
  exact Option.noConfusion h

/-- A payload with a top-level sensitive key and a 7-deep chain of
non-sensitive objects. -/
def sanitizeDemoDeep : JValue := .obj [("g", .str "deep")]

/-- See `sanitizeDemoDeep`: the chain `a.b.c.d.e.f` reaches it at depth 6. -/
def sanitizeDemoPayload : JValue :=
  .obj [("password", .str "pw"),
    ("a", .obj [("b", .obj [("c", .obj [("d", .obj [("e",
      .obj [("f", sanitizeDemoDeep)])])])])])]

/-- Witness for C5 (amended): `password` at depth 0 is redacted, and the
object under `a.b.c.d.e.f` (depth 6) becomes the depth-exceeded marker. -/
theorem sanitizeData_redaction_witness :
    getPath (sanitizeData sanitizeDemoPayload) [.key "password"] =
      some (.str redactedMarker)
    ∧ getPath (sanitizeData sanitizeDemoPayload)
        [.key "a", .key "b", .key "c", .key "d", .key "e", .key "f"] =
      some (.str deepMarker) :=
  ⟨(sanitizeData_redaction sanitizeDemoPayload).1 [] "password" (.str "pw")
      (by decide) (by decide) (by decide) rfl,
    (sanitizeData_redaction sanitizeDemoPayload).2
      [.key "a", .key "b", .key "c", .key "d", .key "e", .key "f"]
      sanitizeDemoDeep (by decide) (by decide) rfl (by decide)⟩

/-! ## Response-body truncation (src/api/download.ts, `truncateResponseBody`) -/

/-- One hexadecimal digit (lowercase), for `\uXXXX` escapes. -/
def hexDigit (n : Nat) : Char :=
  if n < 10 then Char.ofNat (48 + n) else Char.ofNat (87 + n)

/-- JSON string escaping of one character, as `JSON.stringify` performs
it: quote, backslash, the short control escapes, `\uXXXX` for the other
control characters, everything else verbatim. -/
def escapeChar (c : Char) : List Char :=
  if c = '"' then ['\\', '"']
  else if c = '\\' then ['\\', '\\']
  else if c = '\n' then ['\\', 'n']
  else if c = '\r' then ['\\', 'r']
  else if c = '\t' then ['\\', 't']
  else if c.toNat = 8 then ['\\', 'b']
  else if c.toNat = 12 then ['\\', 'f']
  else if c.toNat < 32 then
    ['\\', 'u', hexDigit (c.toNat / 4096 % 16), hexDigit (c.toNat / 256 % 16),
      hexDigit (c.toNat / 16 % 16), hexDigit (c.toNat % 16)]
  else [c]

/-- A JSON string literal with escapes. -/
def quoteString (s : String) : String :=
  "\"" ++ String.mk (s.data.flatMap escapeChar) ++ "\""

/-- `JSON.stringify` over the `JValue` model (integer numbers print as in
JavaScript's `String(n)`). -/
def jsonStringify : JValue → String
  | .null => "null"
  | .boolean true => "true"
  | .boolean false => "false"
  | .num n => toString n
  | .str s => quoteString s
  | .arr elems => "[" ++ String.intercalate "," (elems.attach.map
      fun e => jsonStringify e.1) ++ "]"
  | .obj entries => "\x7b" ++ String.intercalate "," (entries.attach.map
      fun kv => quoteString kv.1.1 ++ ":" ++ jsonStringify kv.1.2) ++ "\x7d"
decreasing_by
  · have := e.2
    simp only [JValue.arr.sizeOf_spec]
    calc sizeOf e.1 < sizeOf elems := List.sizeOf_lt_of_mem this
      _ < 1 + sizeOf elems := by omega
  · have h1 := List.sizeOf_lt_of_mem kv.2
    simp only [JValue.obj.sizeOf_spec]
    have h2 : sizeOf kv.1.2 < sizeOf kv.1 := by
      cases kv.1 with
      | mk a b => simp
    omega

/-- JavaScript truthiness test of the `!body` early return: `null`,
`false`, `0` and `""` are falsy. -/
def jsFalsy : JValue → Bool
  | .null => true
  | .boolean b => !b
  | .num n => n == 0
  | .str s => s.isEmpty
  | _ => false

/-- `typeof body === 'string' ? body : JSON.stringify(body)`. -/
def bodyStringOf : JValue → String
  | .str s => s
  | v => jsonStringify v

/-- `apiLoggingSettings.maxResponseBodyLength` of `src/config/logging.ts`:
5000 in development, 1000 otherwise. -/
def maxResponseBodyLength (isDevelopment : Bool) : Nat :=
  if isDevelopment then 5000 else 1000

/-- `ApiLogger.truncateResponseBody`: falsy bodies are returned as-is;
otherwise, if the serialized form fits within `maxLength` the body is
returned unchanged, else a wrapper object records the truncation flag,
the original serialized length and the first `maxLength` characters
(`substring(0, maxLength)`, modelled over characters) plus an ellipsis. -/
def truncateResponseBody (body : JValue) (maxLength : Nat) : JValue :=
  if jsFalsy body then body
  else
    let bodyString := bodyStringOf body
    if bodyString.length ≤ maxLength then body
    else
      .obj [("_truncated", .boolean true),
        ("_originalLength", .num (bodyString.length : Int)),
        ("_data", .str (String.mk (bodyString.data.take maxLength) ++ "..."))]

/-- C8 — for every payload and maximum length of at least 5 (both
configured values, 1000 and 5000, qualify): if the serialized length
exceeds the maximum the result is the wrapper object with `_truncated =
true`, `_originalLength` equal to the true serialized length and a prefix
of the serialized form; otherwise the payload is returned unchanged. -/
theorem truncateResponseBody_spec (body : JValue) (maxLength : Nat)
    (h5 : 5 ≤ maxLength) :
    ((bodyStringOf body).length ≤ maxLength →
      truncateResponseBody body maxLength = body)
    ∧ (maxLength < (bodyStringOf body).length →
      truncateResponseBody body maxLength =
        .obj [("_truncated", .boolean true),
          ("_originalLength", .num ((bodyStringOf body).length : Int)),
          ("_data", .str (String.mk ((bodyStringOf body).data.take maxLength)
            ++ "..."))]) := by
  constructor
  · intro hle
    rw [truncateResponseBody]
    by_cases hf : jsFalsy body
    · rw [if_pos hf]
    · rw [if_neg hf]
      simp only [if_pos hle]
  · intro hgt
    have hfalsy : jsFalsy body = false := by
      cases body with
      | null =>
        have e1 : bodyStringOf JValue.null = "null" := by
          simp [bodyStringOf, jsonStringify]
        rw [e1] at hgt
        have h4 : ("null" : String).length = 4 := by decide
        omega
      | boolean b =>
        cases b with
        | true => rfl
        | false =>
          have e1 : bodyStringOf (JValue.boolean false) = "false" := by
            simp [bodyStringOf, jsonStringify]
          rw [e1] at hgt
          have h4 : ("false" : String).length = 5 := by decide
          omega
      | num n =>
        by_cases hn : n = 0
        · subst hn
          have e1 : bodyStringOf (.num 0) = toString (0 : Int) := by
            simp [bodyStringOf, jsonStringify]
          rw [e1] at hgt
          have h1 : (toString (0 : Int)).length = 1 := by decide
          omega
        · simp [jsFalsy, hn]
      | str s =>
        by_cases he : s.isEmpty
        · rw [(String.isEmpty_iff s).mp he] at hgt
          have h0 : (bodyStringOf (.str "")).length = 0 := by decide
          omega
        · simp [jsFalsy, he]
      | arr elems => rfl
      | obj entries => rfl
    rw [truncateResponseBody, hfalsy]
    simp only [Bool.false_eq_true, if_false]
    rw [if_neg (by omega)]

/-- Witness for C8: a 9-character string body with maximum 5 produces the
wrapper, and a 2-character body is returned unchanged. -/
theorem truncateResponseBody_spec_witness :
    (5 < (bodyStringOf (.str "abcdefghi")).length
      ∧ truncateResponseBody (.str "abcdefghi") 5 =
        .obj [("_truncated", .boolean true), ("_originalLength", .num 9),
          ("_data", .str "abcde...")])
    ∧ ((bodyStringOf (.str "ab")).length ≤ 5
      ∧ truncateResponseBody (.str "ab") 5 = .str "ab") :=
  ⟨⟨by decide,
    ((truncateResponseBody_spec (.str "abcdefghi") 5 (by decide)).2
      (by decide)).trans rfl⟩,
    ⟨by decide,
      (truncateResponseBody_spec (.str "ab") 5 (by decide)).1 (by decide)⟩⟩

/-! ## Request correlation tracker (src/api/download.ts, `ApiLogger`)

`activeRequests : Map<string, ApiLogContext>` is modelled as a list of
contexts keyed by their `requestId` field (`logRequest` always stores the
context under its own `requestId`, so the map key equals the field);
`Map.get` is `find?`, `Map.delete` removes the entry with that key.
`Date.now()` is an explicit `now` parameter. -/

/-- Interface `ApiLogContext`. -/
structure ApiLogContext where
  requestId : String
  method : String
  url : String
  timestamp : Int
  userId : Option String
  sessionId : Option String
  userAgent : Option String
  ip : Option String
deriving DecidableEq, Repr

/-- The fields of interface `ApiResponseLog` that `logResponse` reads. -/
structure ApiResponseLog where
  requestId : String
  status : Int
  duration : Int
  responseBody : Option JValue

/-- A JavaScript error as `logError` destructures it. -/
structure JsError where
  message : String
  stack : Option String
  code : Option String
  status : Option Int
deriving DecidableEq, Repr

/-- One emission through the underlying `Logger`, tagged by the emitting
call: `warn`/`error` are plain level-tagged messages, `apiResponse` and
`apiError` are the structured emissions of the corresponding `Logger`
methods. -/
inductive LogAct where
  | warn (message : String)
  | error (message : String)
  | apiResponse (method url : String) (status : Int)
      (responseBody : Option JValue) (requestId : String) (duration : Int)
  | apiError (method url : String) (err : JsError)
      (sanitizedContext : Option JValue) (requestId : String) (duration : Int)

/-- Whether an emission is WARN-level. -/
def isWarnAct : LogAct → Bool
  | .warn _ => true
  | _ => false

/-- `apiLoggingSettings.slowRequestThreshold` (ms). -/
def slowRequestThreshold : Int := 3000

/-- JavaScript `a || b` on numbers: `a` unless it is `0` (falsy). -/
def jsOrInt (a b : Int) : Int := if a = 0 then b else a

/-- `ApiLogger.logResponse`: look the context up; if absent, warn and
return with the tracker unchanged (never throws); if present, compute the
duration (`response.duration || now - context.timestamp`), emit a slow
warning when it exceeds the threshold, sanitize/truncate the response
body when body logging is on, emit the response entry, and delete the
context (single use). -/
def logResponse (active : List ApiLogContext) (response : ApiResponseLog)
    (logResponseBodies : Bool) (maxLen : Nat) (now : Int) :
    List ApiLogContext × List LogAct :=
  match active.find? fun c => c.requestId = response.requestId with
  | none =>
    (active, [.warn ("No request context found for response: " ++
      response.requestId)])
  | some context =>
    let duration := jsOrInt response.duration (now - context.timestamp)
    let slowActs : List LogAct :=
      if slowRequestThreshold < duration then
        [.warn ("Slow API request detected: " ++ context.method ++ " " ++
          context.url)]
      else []
    let responseBody : Option JValue :=
      match response.responseBody with
      | some b =>
        if logResponseBodies && !jsFalsy b then
          some (truncateResponseBody (sanitizeData b) maxLen)
        else some b
      | none => none
    (active.filter fun c => ¬ (c.requestId = response.requestId),
      slowActs ++ [.apiResponse context.method context.url response.status
        responseBody response.requestId duration])

/-- `ApiLogger.logError`: look the context up; if absent, log an
ERROR-level "API Error without request context" entry and return with the
tracker unchanged (never throws); if present, emit the structured error
entry (with the sanitized additional context) and delete the context. -/
def logError (active : List ApiLogContext) (requestId : String)
    (err : JsError) (additionalContext : Option JValue) (now : Int) :
    List ApiLogContext × List LogAct :=
  match active.find? fun c => c.requestId = requestId with
  | none => (active, [.error "API Error without request context"])
  | some context =>
    let duration := now - context.timestamp
    (active.filter fun c => ¬ (c.requestId = requestId),
      [.apiError context.method context.url err
        (additionalContext.map sanitizeData) requestId duration])

/-- The result of `ApiLogger.getActiveRequestsStats`. -/
structure ApiRequestsStats where
  total : Nat
  byMethod : String → Nat
  oldestRequest : Option String

/-- The loop body of `getActiveRequestsStats`: bump the per-method count
(`byMethod[method] = (byMethod[method] || 0) + 1`) and track the entry
with the strictly smallest timestamp. -/
def statsStep (acc : (String → Nat) × Option String × Int)
    (c : ApiLogContext) : (String → Nat) × Option String × Int :=
  ((fun m => if m = c.method then acc.1 m + 1 else acc.1 m),
    (if c.timestamp < acc.2.2 then some c.requestId else acc.2.1),
    (if c.timestamp < acc.2.2 then c.timestamp else acc.2.2))

/-- `ApiLogger.getActiveRequestsStats`: total live count, a per-method
count, and the id of the entry with the strictly smallest timestamp
(`oldestTimestamp` starts at `Date.now()`). -/
def getActiveRequestsStats (active : List ApiLogContext) (now : Int) :
    ApiRequestsStats :=
  let r := active.foldl statsStep ((fun _ => 0), none, now)
  { total := active.length, byMethod := r.1, oldestRequest := r.2.1 }

/-- The five-minute staleness window of `cleanupStaleRequests` (ms). -/
def fiveMinutesMs : Int := 5 * 60 * 1000

/-- `ApiLogger.cleanupStaleRequests`: delete every context whose
timestamp is older than five minutes, emit one WARN per evicted entry,
and return the evicted count (iterating a JavaScript `Map` while deleting
visits every entry exactly once, so the net effect is a partition). -/
def cleanupStaleRequests (active : List ApiLogContext) (now : Int) :
    List ApiLogContext × Nat × List LogAct :=
  let fiveMinutesAgo := now - fiveMinutesMs
  let stale := active.filter fun c => c.timestamp < fiveMinutesAgo
  (active.filter fun c => ¬ (c.timestamp < fiveMinutesAgo),
    stale.length,
    stale.map fun c => .warn ("Cleaning up stale request: " ++ c.method ++
      " " ++ c.url))

/-- Deleting a request id from the tracker makes lookups of that id miss. -/
theorem find?_filter_out (l : List ApiLogContext) (rid : String) :
    (l.filter fun c => ¬ (c.requestId = rid)).find?
      (fun c => c.requestId = rid) = none := by
  rw [List.find?_eq_none]
  intro x hx
  have hmem := List.of_mem_filter hx
  simp at hmem ⊢
  exact hmem

/-- C6 (counterexample to the claim as stated) — `logError` on an unknown
request id does not log a *warning*: its single emission is the
ERROR-level "API Error without request context" entry. -/
theorem requestLifecycle_warning_counterexample :
    (logError [] "req-1" ⟨"boom", none, none, none⟩ none 0).2 =
      [.error "API Error without request context"]
    ∧ (logError [] "req-1" ⟨"boom", none, none, none⟩ none 0).1 = []
    ∧ isWarnAct (.error "API Error without request context") = false :=
  ⟨rfl, rfl, rfl⟩

/-- C6 (amended) — `logResponse` and `logError` on an id the tracker does
not hold log a single diagnostic entry (a warning for `logResponse`, an
ERROR-level entry for `logError`) and return with the tracker unchanged —
they never throw; after either call the tracker no longer holds the id,
so a second `logResponse` or `logError` for the same id takes the
unknown-id path (a logged no-op). -/
theorem requestLifecycle_single_use
    (active : List ApiLogContext) (r : ApiResponseLog) (rid : String)
    (err : JsError) (addCtx : Option JValue) (lrb : Bool) (maxLen : Nat)
    (now now2 : Int) :
    (active.find? (fun c => c.requestId = r.requestId) = none →
      logResponse active r lrb maxLen now =
        (active, [.warn ("No request context found for response: " ++
          r.requestId)]))
    ∧ (active.find? (fun c => c.requestId = rid) = none →
      logError active rid err addCtx now =
        (active, [.error "API Error without request context"]))
    ∧ (logResponse active r lrb maxLen now).1.find?
        (fun c => c.requestId = r.requestId) = none
    ∧ (logError active rid err addCtx now).1.find?
        (fun c => c.requestId = rid) = none
    ∧ logResponse (logResponse active r lrb maxLen now).1 r lrb maxLen now2 =
        ((logResponse active r lrb maxLen now).1,
          [.warn ("No request context found for response: " ++ r.requestId)])
    ∧ logError (logError active rid err addCtx now).1 rid err addCtx now2 =
        ((logError active rid err addCtx now).1,
          [.error "API Error without request context"]) := by
  have hResp : ∀ (s : List ApiLogContext) (t : Int),
      s.find? (fun c => c.requestId = r.requestId) = none →
      logResponse s r lrb maxLen t =
        (s, [.warn ("No request context found for response: " ++
          r.requestId)]) := by
    intro s t h
    rw [logResponse, h]
  have hErr : ∀ (s : List ApiLogContext) (t : Int),
      s.find? (fun c => c.requestId = rid) = none →
      logError s rid err addCtx t =
        (s, [.error "API Error without request context"]) := by
    intro s t h
    rw [logError, h]
  have hRespDel : (logResponse active r lrb maxLen now).1.find?
      (fun c => c.requestId = r.requestId) = none := by
    rw [logResponse]
    cases hfind : active.find? fun c => c.requestId = r.requestId with
    | none => exact hfind
    | some context => exact find?_filter_out active r.requestId
  have hErrDel : (logError active rid err addCtx now).1.find?
      (fun c => c.requestId = rid) = none := by
    rw [logError]
    cases hfind : active.find? fun c => c.requestId = rid with
    | none => exact hfind
    | some context => exact find?_filter_out active rid
  exact ⟨hResp active now, hErr active now, hRespDel, hErrDel,
    hResp _ now2 hRespDel, hErr _ now2 hErrDel⟩

/-- A demo context entry for the lifecycle witnesses. -/
def demoContext : ApiLogContext :=
  { requestId := "req-1", method := "GET",
    url := "/drama-box/chapterv2/batch/load", timestamp := 1000,
    userId := none, sessionId := none, userAgent := none, ip := none }

/-- A demo response for the lifecycle witnesses. -/
def demoResponse : ApiResponseLog :=
  { requestId := "req-1", status := 200, duration := 5, responseBody := none }

/-- A demo error for the lifecycle witnesses. -/
def demoError : JsError := ⟨"boom", none, none, none⟩

/-- Witness for C6: on an empty tracker both calls are logged no-ops, and
after a successful `logResponse` the id is gone, so the second call takes
the unknown-id path. -/
theorem requestLifecycle_single_use_witness :
    logResponse [] demoResponse false 1000 2000 =
      ([], [.warn "No request context found for response: req-1"])
    ∧ logError [] "req-1" demoError none 2000 =
      ([], [.error "API Error without request context"])
    ∧ (logResponse [demoContext] demoResponse false 1000 2000).1.find?
        (fun c => c.requestId = demoResponse.requestId) = none
    ∧ logResponse (logResponse [demoContext] demoResponse false 1000 2000).1
        demoResponse false 1000 3000 =
      ((logResponse [demoContext] demoResponse false 1000 2000).1,
        [.warn "No request context found for response: req-1"]) :=
  ⟨(requestLifecycle_single_use [] demoResponse "req-1" demoError none
      false 1000 2000 3000).1 (by decide),
    (requestLifecycle_single_use [] demoResponse "req-1" demoError none
      false 1000 2000 3000).2.1 (by decide),
    (requestLifecycle_single_use [demoContext] demoResponse "req-1"
      demoError none false 1000 2000 3000).2.2.1,
    (requestLifecycle_single_use [demoContext] demoResponse "req-1"
      demoError none false 1000 2000 3000).2.2.2.2.1⟩

/-- The per-method statistic is the member count of that method, for any
accumulator. -/
theorem statsStep_foldl_byMethod (l : List ApiLogContext) (m : String) :
    ∀ (f : String → Nat) (o : Option String) (t : Int),
      ((l.foldl statsStep (f, o, t)).1) m =
        f m + l.countP (fun c => c.method = m) := by
  induction l with
  | nil => intro f o t; simp
  | cons c l ih =>
    intro f o t
    rw [List.foldl_cons]
    have hstep : statsStep (f, o, t) c =
        ((fun mm => if mm = c.method then f mm + 1 else f mm),
          (if c.timestamp < t then some c.requestId else o),
          (if c.timestamp < t then c.timestamp else t)) := rfl
    rw [hstep, ih, List.countP_cons]
    by_cases hm : m = c.method
    · have h1 : (decide (c.method = m)) = true := by subst hm; simp
      rw [if_pos hm, h1]
      simp
      omega
    · have h1 : (decide (c.method = m)) = false := by
        simp
        exact fun h => hm h.symm
      rw [if_neg hm, h1]
      simp

/-- `getActiveRequestsStats` counts per method exactly the live entries
with that method. -/
theorem getActiveRequestsStats_byMethod (active : List ApiLogContext)
    (now : Int) (m : String) :
    (getActiveRequestsStats active now).byMethod m =
      active.countP (fun c => c.method = m) := by
  rw [getActiveRequestsStats]
  exact (statsStep_foldl_byMethod active m (fun _ => 0) none now).trans
    (by simp)

/-- C9 — `cleanupStaleRequests` deletes exactly the tracker entries whose
timestamp is more than 5 minutes old, logs one WARN per evicted entry and
returns the number evicted; afterwards every remaining entry is at most 5
minutes old and the stats total dropped by the evicted count; every
evicted entry is gone from the post-sweep tracker that `stats` reads,
while before the sweep it is still counted by `getActiveRequestsStats`. -/
theorem cleanupStaleRequests_spec (active : List ApiLogContext) (now : Int) :
    (cleanupStaleRequests active now).1 =
      active.filter (fun c => ¬ (c.timestamp < now - fiveMinutesMs))
    ∧ (cleanupStaleRequests active now).2.1 =
      (active.filter fun c => c.timestamp < now - fiveMinutesMs).length
    ∧ (cleanupStaleRequests active now).2.2.length =
      (cleanupStaleRequests active now).2.1
    ∧ (∀ c ∈ (cleanupStaleRequests active now).1,
        now - c.timestamp ≤ fiveMinutesMs)
    ∧ (getActiveRequestsStats (cleanupStaleRequests active now).1 now).total
        + (cleanupStaleRequests active now).2.1 =
      (getActiveRequestsStats active now).total
    ∧ (∀ c ∈ active, c.timestamp < now - fiveMinutesMs →
        c ∉ (cleanupStaleRequests active now).1
        ∧ 0 < (getActiveRequestsStats active now).byMethod c.method) := by
  refine ⟨rfl, rfl, by simp [cleanupStaleRequests], ?_, ?_, ?_⟩
  · intro c hc
    have h := (List.mem_filter.mp hc).2
    simp at h
    omega
  · have h := List.length_eq_length_filter_add (l := active)
      (f := fun c => decide (c.timestamp < now - fiveMinutesMs))
    have hfun : (fun (c : ApiLogContext) =>
        decide (¬ (c.timestamp < now - fiveMinutesMs))) =
        (fun c => !decide (c.timestamp < now - fiveMinutesMs)) :=
      funext fun c => decide_not
    show (List.filter _ active).length + (List.filter _ active).length =
      active.length
    rw [hfun]
    omega
  · intro c hc hold
    constructor
    · intro hmem
      have h := (List.mem_filter.mp hmem).2
      simp at h
      omega
    · rw [getActiveRequestsStats_byMethod]
      exact List.countP_pos_iff.mpr ⟨c, hc, by simp⟩

/-- A stale demo context (timestamp 0). -/
def staleContext : ApiLogContext :=
  { requestId := "req-old", method := "GET", url := "/a", timestamp := 0,
    userId := none, sessionId := none, userAgent := none, ip := none }

/-- A fresh demo context (timestamp 900000). -/
def freshContext : ApiLogContext :=
  { requestId := "req-new", method := "GET", url := "/b",
    timestamp := 900000,
    userId := none, sessionId := none, userAgent := none, ip := none }

/-- Witness for C9: at `now = 1000000` the sweep keeps only the fresh
entry, the survivor is within the window, the stale entry is gone, and it
was counted before the sweep. -/
theorem cleanupStaleRequests_spec_witness :
    (cleanupStaleRequests [staleContext, freshContext] 1000000).1 =
      [freshContext]
    ∧ 1000000 - freshContext.timestamp ≤ fiveMinutesMs
    ∧ (staleContext ∉ (cleanupStaleRequests [staleContext, freshContext]
        1000000).1
      ∧ 0 < (getActiveRequestsStats [staleContext, freshContext]
        1000000).byMethod staleContext.method) :=
  ⟨((cleanupStaleRequests_spec [staleContext, freshContext] 1000000).1).trans
      (by decide),
    (cleanupStaleRequests_spec [staleContext, freshContext] 1000000).2.2.2.1
      freshContext (by decide),
    (cleanupStaleRequests_spec [staleContext, freshContext]
      1000000).2.2.2.2.2 staleContext (by decide) (by decide)⟩

/-! ## Buffered durable sink (src/utils/logger.ts)

The runtime is single-threaded and event-loop-cooperative: interleaving
happens only at `await` suspension points.  `flushLogs` performs
`const logsToFlush = [...this.logBuffer]; this.logBuffer = [];` as one
synchronous block with no `await` between the two statements, then writes
the snapshot with `await`s that touch only the file, never the buffer.
The model therefore makes the snapshot-and-clear a single step, and lets
an arbitrary event sequence interleave entry pushes (`processLog`) and
drains (the 5-second timer or the immediate ERROR/FATAL drain).  Entries
are identified by their push sequence number. -/

/-- `enum LogLevel` of `logger.ts` (`DEBUG = 0 .. FATAL = 4`). -/
inductive LogLevel where
  | debug
  | info
  | warn
  | error
  | fatal
deriving DecidableEq, Repr

/-- The numeric value of the enum member. -/
def LogLevel.toNat : LogLevel → Nat
  | .debug => 0
  | .info => 1
  | .warn => 2
  | .error => 3
  | .fatal => 4

/-- `Logger.shouldLog`: `level >= this.config.logLevel`. -/
def shouldLog (configLevel level : LogLevel) : Bool :=
  configLevel.toNat ≤ level.toNat

/-- The durable-sink state: the in-memory `logBuffer` (push sequence
numbers), the list of drained snapshots in drain order (each snapshot is
what one `flushLogs` run hands to the file writes), and the number of
pushes so far. -/
structure SinkState where
  buffer : List Nat
  written : List (List Nat)
  pushed : Nat
deriving DecidableEq, Repr

/-- `Logger.flushLogs`: return if the buffer is empty, else atomically
snapshot and clear it, recording the snapshot as drained. -/
def flushLogs (s : SinkState) : SinkState :=
  if s.buffer = [] then s
  else { s with buffer := [], written := s.written ++ [s.buffer] }

/-- The durable-sink part of `Logger.processLog`: gate on `shouldLog`;
when file logging is enabled push the entry and, for `ERROR`/`FATAL`,
force an immediate drain instead of waiting for the timer. -/
def processLog (configLevel : LogLevel) (enableFileLogging : Bool)
    (level : LogLevel) (s : SinkState) : SinkState :=
  if ¬ shouldLog configLevel level then s
  else if enableFileLogging then
    let s1 : SinkState :=
      { s with buffer := s.buffer ++ [s.pushed], pushed := s.pushed + 1 }
    if LogLevel.error.toNat ≤ level.toNat then flushLogs s1 else s1
  else s

/-- One event-loop turn touching the sink: a log call, or the periodic
timer firing. -/
inductive SinkEvent where
  | log (level : LogLevel)
  | timerFlush

/-- Run an arbitrary interleaving of log calls and timer drains from the
empty sink. -/
def sinkRun (configLevel : LogLevel) (enableFileLogging : Bool)
    (events : List SinkEvent) : SinkState :=
  events.foldl
    (fun s e =>
      match e with
      | .log level => processLog configLevel enableFileLogging level s
      | .timerFlush => flushLogs s)
    ⟨[], [], 0⟩

/-- Draining preserves the no-loss/no-duplication ledger. -/
theorem flushLogs_ledger (s : SinkState)
    (h : s.written.flatten ++ s.buffer = List.range s.pushed) :
    (flushLogs s).written.flatten ++ (flushLogs s).buffer =
      List.range (flushLogs s).pushed := by
  rw [flushLogs]
  by_cases hb : s.buffer = []
  · rw [if_pos hb]; exact h
  · rw [if_neg hb]
    simpa [List.flatten_append] using h

/-- A log call preserves the no-loss/no-duplication ledger. -/
theorem processLog_ledger (configLevel : LogLevel) (efl : Bool)
    (level : LogLevel) (s : SinkState)
    (h : s.written.flatten ++ s.buffer = List.range s.pushed) :
    (processLog configLevel efl level s).written.flatten ++
      (processLog configLevel efl level s).buffer =
    List.range (processLog configLevel efl level s).pushed := by
  rw [processLog]
  by_cases hg : ¬ shouldLog configLevel level
  · rw [if_pos hg]; exact h
  · rw [if_neg hg]
    cases efl with
    | false => exact h
    | true =>
      simp only [if_true]
      have hpush : s.written.flatten ++ (s.buffer ++ [s.pushed]) =
          List.range (s.pushed + 1) := by
        rw [List.range_succ, ← List.append_assoc, h]
      by_cases hl : LogLevel.error.toNat ≤ level.toNat
      · rw [if_pos hl]
        exact flushLogs_ledger _ hpush
      · rw [if_neg hl]
        exact hpush

/-- C7 — for every interleaving of log calls and drains at suspension
points (including the immediate ERROR/FATAL drain overlapping the
periodic one), the drained snapshots in drain order followed by the
still-buffered entries are exactly the pushed entries `0..pushed-1` in
order: every pushed entry belongs to the snapshot of at most one drain,
entries pushed during file I/O stay buffered for a later drain, and no
entry is lost or duplicated.  This rests on `flushLogs` snapshotting and
clearing the buffer synchronously before any file I/O, which the model's
single-step drain mirrors. -/
theorem sinkRun_no_loss_no_dup (configLevel : LogLevel) (efl : Bool)
    (events : List SinkEvent) :
    (sinkRun configLevel efl events).written.flatten ++
      (sinkRun configLevel efl events).buffer =
    List.range (sinkRun configLevel efl events).pushed := by
  suffices haux : ∀ (l : List SinkEvent) (s : SinkState),
      s.written.flatten ++ s.buffer = List.range s.pushed →
      (l.foldl (fun s e =>
          match e with
          | .log level => processLog configLevel efl level s
          | .timerFlush => flushLogs s) s).written.flatten ++
        (l.foldl (fun s e =>
          match e with
          | .log level => processLog configLevel efl level s
          | .timerFlush => flushLogs s) s).buffer =
      List.range (l.foldl (fun s e =>
          match e with
          | .log level => processLog configLevel efl level s
          | .timerFlush => flushLogs s) s).pushed by
    exact haux events ⟨[], [], 0⟩ rfl
  intro l
  induction l with
  | nil => intro s h; exact h
  | cons e rest ih =>
    intro s h
    rw [List.foldl_cons]
    cases e with
    | log level => exact ih _ (processLog_ledger configLevel efl level s h)
    | timerFlush => exact ih _ (flushLogs_ledger s h)

/-! ## Frame property of `sanitizeData` (heap model)

To state that `sanitizeData` never mutates its input, the JavaScript heap
is made explicit: primitives are immediate values, objects and arrays are
references into a store of cells.  Allocation appends a fresh cell; the
embedded code has no primitive that overwrites an existing cell — exactly
like the source, which only reads `data` and builds its result from fresh
`[...]`/`{...}` copies and fresh `result` objects. -/

/-- A JavaScript value as seen in a variable, object property or array
slot: a primitive, or a reference to a heap cell. -/
inductive HSlot where
  | null
  | boolean (b : Bool)
  | num (n : Int)
  | str (s : String)
  | ref (r : Nat)
deriving DecidableEq, Repr

/-- A heap cell: one object or array. -/
inductive HCell where
  | obj (entries : List (String × HSlot))
  | arr (elems : List HSlot)
deriving DecidableEq, Repr

/-- Allocate a fresh cell, returning the new store and the reference. -/
def alloc (st : List HCell) (c : HCell) : List HCell × Nat :=
  (st ++ [c], st.length)

/-- `sanitizeRecursive` over the explicit heap, indexed by the remaining
depth budget `6 - depth` exactly as the pure model: budget 0 returns the
depth marker (a primitive string, no allocation); arrays recurse into
every item and allocate a fresh array (`obj.map(...)`); objects build a
fresh `result` object, redacting sensitive keys, recursing into
reference-valued (composite) properties and copying primitives; a
dangling reference (impossible on a well-formed heap) is returned as-is. -/
def sanitizeRecursiveH : Nat → List HCell → HSlot → List HCell × HSlot
  | 0, st, _ => (st, .str deepMarker)
  | b + 1, st, slot =>
    match slot with
    | .ref r =>
      match st[r]? with
      | some (.arr elems) =>
        let acc1 := elems.foldl
          (fun (acc : List HCell × List HSlot) e =>
            let r2 := sanitizeRecursiveH b acc.1 e
            (r2.1, acc.2 ++ [r2.2]))
          (st, [])
        let a := alloc acc1.1 (.arr acc1.2)
        (a.1, .ref a.2)
      | some (.obj entries) =>
        let acc1 := entries.foldl
          (fun (acc : List HCell × List (String × HSlot)) kv =>
            if isSensitiveKey kv.1 then
              (acc.1, acc.2 ++ [(kv.1, HSlot.str redactedMarker)])
            else
              match kv.2 with
              | .ref rr =>
                let r2 := sanitizeRecursiveH b acc.1 (.ref rr)
                (r2.1, acc.2 ++ [(kv.1, r2.2)])
              | w => (acc.1, acc.2 ++ [(kv.1, w)]))
          (st, [])
        let a := alloc acc1.1 (.obj acc1.2)
        (a.1, .ref a.2)
      | none => (st, slot)
    | a => (st, a)

/-- `sanitizeData` over the explicit heap: primitives are returned
unchanged; a composite argument is shallow-copied
(`Array.isArray(data) ? [...data] : {...data}` — a fresh cell sharing the
original's slots) and the copy is sanitized at depth 0 (budget 6). -/
def sanitizeDataH (st : List HCell) (v : HSlot) : List HCell × HSlot :=
  match v with
  | .ref r =>
    match st[r]? with
    | some cell =>
      let a := alloc st cell
      sanitizeRecursiveH 6 a.1 (.ref a.2)
    | none => (st, v)
  | a => (st, a)

/-- A fold whose step only ever extends the store keeps the initial store
as a prefix. -/
theorem foldl_store_grows {γ β : Type}
    (f : List HCell × List γ → β → List HCell × List γ)
    (hf : ∀ acc e, acc.1 <+: (f acc e).1) (l : List β) :
    ∀ acc : List HCell × List γ, acc.1 <+: (l.foldl f acc).1 := by
  induction l with
  | nil => intro acc; exact List.prefix_refl _
  | cons e rest ih => intro acc; exact (hf acc e).trans (ih (f acc e))

/-- The heap sanitizer only allocates: the input store is a prefix of the
output store, at every budget. -/
theorem sanitizeRecursiveH_frame :
    ∀ (b : Nat) (st : List HCell) (slot : HSlot),
      st <+: (sanitizeRecursiveH b st slot).1 := by
  intro b
  induction b with
  | zero => intro st slot; exact List.prefix_refl _
  | succ b ih =>
    intro st slot
    cases slot with
    | ref r =>
      simp only [sanitizeRecursiveH]
      cases hc : st[r]? with
      | none => exact List.prefix_refl _
      | some cell =>
        cases cell with
        | arr elems =>
          exact (foldl_store_grows _
            (fun acc e => ih acc.1 e) elems (st, [])).trans
            (List.prefix_append _ _)
        | obj entries =>
          refine (foldl_store_grows _ ?_ entries (st, [])).trans
            (List.prefix_append _ _)
          intro acc kv
          by_cases hs : isSensitiveKey kv.1
          · simp only [hs, if_true]
            exact List.prefix_refl _
          · simp only [hs, Bool.false_eq_true, if_false]
            cases kv.2 with
            | ref rr => exact ih acc.1 (.ref rr)
            | null => exact List.prefix_refl _
            | boolean bb => exact List.prefix_refl _
            | num n => exact List.prefix_refl _
            | str s => exact List.prefix_refl _
    | null => exact List.prefix_refl _
    | boolean bb => exact List.prefix_refl _
    | num n => exact List.prefix_refl _
    | str s => exact List.prefix_refl _

/-- C10 — `sanitizeData` does not mutate its input: running it over the
explicit heap only appends fresh cells, so the original store is a prefix
of the result store and every pre-existing cell — every nested object and
array of the payload, including the values stored under sensitive keys —
reads back exactly as before the call.  Redaction affects only the fresh
copy destined for the log. -/
theorem sanitizeDataH_frame (st : List HCell) (v : HSlot) :
    st <+: (sanitizeDataH st v).1
    ∧ ∀ i, i < st.length → ((sanitizeDataH st v).1)[i]? = st[i]? := by
  have hpre : st <+: (sanitizeDataH st v).1 := by
    cases v with
    | ref r =>
      simp only [sanitizeDataH]
      cases hc : st[r]? with
      | none => exact List.prefix_refl _
      | some cell =>
        exact (List.prefix_append st [cell]).trans
          (sanitizeRecursiveH_frame 6 (st ++ [cell]) (.ref st.length))
    | null => exact List.prefix_refl _
    | boolean bb => exact List.prefix_refl _
    | num n => exact List.prefix_refl _
    | str s => exact List.prefix_refl _
  refine ⟨hpre, fun i hi => ?_⟩
  obtain ⟨t, ht⟩ := hpre
  rw [← ht, List.getElem?_append, if_pos hi]

/-- A demo heap: cell 0 is `{token: "x", data: [1]}` whose `data` slot
references cell 1, the array `[1]`. -/
def demoHeap : List HCell :=
  [.obj [("token", .str "x"), ("data", .ref 1)], .arr [.num 1]]

/-- Witness for C10: sanitizing `{token: "x", data: [1]}` leaves both
original cells readable unchanged at their old references. -/
theorem sanitizeDataH_frame_witness :
    ((sanitizeDataH demoHeap (.ref 0)).1)[0]? =
      some (.obj [("token", .str "x"), ("data", .ref 1)])
    ∧ ((sanitizeDataH demoHeap (.ref 0)).1)[1]? = some (.arr [.num 1]) :=
  ⟨((sanitizeDataH_frame demoHeap (.ref 0)).2 0 (by decide)).trans (by decide),
    ((sanitizeDataH_frame demoHeap (.ref 0)).2 1 (by decide)).trans (by decide)⟩

end DramaBox
